import Mathlib

/-!
Verification of the Living Truth Engine job-pipeline core against its
natural-language specification.

The embedding translates the Python sources:

* `src/veritas-nexus/mcp/provenance/server.py` — `merkle_root`, `hash_sentences`
* `src/apps/veritas_worker/tasks.py` — `_canonicalize`, `_provenance`, `run_job`
* `src/apps/veritas_worker/worker.py` — the `__main__` dequeue/run loop
* `src/apps/veritas_api/store.py` — `create_job`'s initial status snapshot

The SHA-256 hash used by the sources is modelled as an explicit function
parameter `h : String → String`: every statement below is proved for all
choices of `h` (or, where a claim needs collision-freeness, for all `h`
satisfying an explicit decodability hypothesis), and the source program is
the instance where `h` is SHA-256 hexdigest.  Python floats carrying the
progress fractions are modelled as exact rationals, and the millisecond
timestamp `int(seg["start"] * 1000)` as the integer of milliseconds.
-/

/-! ## Provenance engine: merkle_root (provenance/server.py lines 8-14) -/

/-- One list comprehension step `[h(layer[i]+layer[i+1]) for i in range(0,len(layer),2)]`
over an (even-length, after padding) layer: hash the concatenation of each
adjacent pair. -/
def hashPairs (h : String → String) : List String → List String
  | x :: y :: rest => h (x ++ y) :: hashPairs h rest
  | _ => []

/-- The `if len(layer)%2==1: layer.append(layer[-1])` padding step: duplicate
the final digest when the layer has odd length.  (`getD ""` is never reached:
an odd-length list is nonempty.) -/
def padIfOdd (layer : List String) : List String :=
  if layer.length % 2 = 1 then layer ++ [layer.getLast?.getD ""] else layer

/-- One iteration of the `while len(layer) > 1` loop body: pad, then hash pairs. -/
def levelUp (h : String → String) (layer : List String) : List String :=
  hashPairs h (padIfOdd layer)

/-- The `while len(layer) > 1` loop, rendered with explicit fuel so that it is
a structural recursion the kernel can evaluate.  `merkle_root` supplies fuel
equal to the initial layer length, which is always sufficient because each
iteration at least halves the layer (see `merkleLoopFuel_irrel`). -/
def merkleLoopFuel (h : String → String) : Nat → List String → String
  | 0, layer => layer.headD ""
  | fuel + 1, layer =>
    if 1 < layer.length then merkleLoopFuel h fuel (levelUp h layer)
    else layer.headD ""

/-- Translation of `merkle_root` from `provenance/server.py` (the identical inline loop sits in
`_provenance` in `tasks.py` lines 55-62): empty input hashes the empty string,
otherwise fold layers until one digest remains and return `layer[0]`. -/
def merkle_root (h : String → String) (hashes : List String) : String :=
  if hashes.isEmpty then h "" else merkleLoopFuel h hashes.length hashes

/-- Body of `hash_sentences` and of the per-record step of `_provenance`: hash every
sentence, then take the merkle root of the digest list. -/
def rootOfSentences (h : String → String) (sentences : List String) : String :=
  merkle_root h (sentences.map h)

/-! ## Spec-side merkle fold

Modelled from the spec: "hash each sentence with SHA-256, then repeatedly
replace each level by the hashes of the concatenations of adjacent digest
pairs, duplicating the final digest when a level has odd length, until one
digest remains" (spec §4.1 and the C1 property text).  The pairing is written
directly from those words — chunk the level into adjacent pairs, duplicating
the final element of an odd level — to be compared with the source-side
`merkle_root` above. -/

/-- Chunk a level into adjacent pairs, pairing a lone final digest with
itself. -/
def chunkPairs : List String → List (String × String)
  | [] => []
  | [x] => [(x, x)]
  | x :: y :: rest => (x, y) :: chunkPairs rest

/-- One spec level: the hashes of the concatenations of the adjacent pairs. -/
def specLevel (h : String → String) (layer : List String) : List String :=
  (chunkPairs layer).map fun p => h (p.1 ++ p.2)

/-- Repeatedly replace the level until one digest remains (fuel-indexed;
`specRootOfSentences` supplies sufficient fuel).  The empty level is the
spec's defined sentinel `h ""`. -/
def specFoldLevels (h : String → String) : Nat → List String → String
  | _, [] => h ""
  | _, [d] => d
  | 0, layer => layer.headD ""
  | fuel + 1, layer => specFoldLevels h fuel (specLevel h layer)

/-- Spec-side root of a sentence list: hash each sentence, then fold levels. -/
def specRootOfSentences (h : String → String) (sentences : List String) : String :=
  specFoldLevels h (sentences.map h).length (sentences.map h)

/-! ## Data model of the job pipeline (tasks.py, store.py, schemas.py) -/

/-- One transcript segment as consumed by `run_job`: the `seg` dicts returned
by the transcript API, with `seg.get("text") or ""` modelled as the `text`
field and `int(seg["start"] * 1000)` modelled as the integer `startMs`. -/
structure Seg where
  text : String
  startMs : Nat
deriving DecidableEq

/-- The item metadata built in `run_job` line 91:
`{"video_id": vid, "timestamp_ms": int(seg["start"]*1000)}`. -/
structure ItemMeta where
  video_id : String
  timestamp_ms : Nat
deriving DecidableEq

/-- A fetched item as appended to `items` in `run_job` line 91. -/
structure Item where
  id : String
  url : String
  text : String
  meta : ItemMeta
deriving DecidableEq

/-- One sentence entry of a canonical record: `{"text": ...}`. -/
structure Sentence where
  text : String
deriving DecidableEq

/-- The canonical record written by `_canonicalize` (tasks.py lines 38-43). -/
structure Record where
  doc_id : String
  url : String
  sentences : List Sentence
  meta : ItemMeta
deriving DecidableEq

/-- The `prov` object `_provenance` attaches to a record (tasks.py line 63). -/
structure Prov where
  sentence_hashes : List String
  merkle_root : String
deriving DecidableEq

/-- One line of the provenance stream: the canonical record plus its `prov`
object (the record's own fields are carried through unchanged). -/
structure ProvRecord where
  record : Record
  prov : Prov
deriving DecidableEq

/-- The `notes` map of a results object; `run_job` line 101 populates it with
the `missing_transcripts` list when any fetch failed. -/
structure MissingEntry where
  video_id : String
  error : String
deriving DecidableEq

structure Notes where
  missing_transcripts : List MissingEntry
deriving DecidableEq

/-- The results object written at `run_job` lines 100-102.  The free-form
claim and bridge objects are opaque to this core (always `[]` here), so they
are modelled as opaque strings. -/
structure Results where
  claims : List String
  fracture_score : ℚ
  unity_bridges : List String
  run_folder : String
  notes : Option Notes
deriving DecidableEq

/-- A status snapshot as written wholesale by `upd` (tasks.py lines 70-71) and
by `store.create_job`: the three mandatory fields plus the optional keys the
union `| (kw.get("extra") or {})` can add.  The metrics mapping is a key/value
list, absent (`none`) when no `metrics` key was written. -/
structure Status where
  state : String
  stage : String
  progress : ℚ
  message : Option String
  metrics : Option (List (String × Nat))
deriving DecidableEq

/-- The fields of the run request that `run_job` reads (tasks.py lines 74-76),
plus the `order` preference from the API schema (never read by `run_job`).
The remaining schema fields (`connectors`, `crawl_depth`, `gates`) are read by
no code in the core. -/
structure RunRequest where
  target : String
  max_items : Nat
  order : String
  video_ids : Option (List String)
deriving DecidableEq

/-- Everything `run_job` writes over one run, in write order: the sequence of
status snapshots, and the corpus / provenance / results artifacts when the run
reaches the stage that writes them. -/
structure RunTrace where
  statuses : List Status
  corpus : Option (List Record)
  prov : Option (List ProvRecord)
  results : Option Results
deriving DecidableEq

/-! ## Pipeline runner (tasks.py) -/

/-- Line 76: `vids = req.get("video_ids") or _yt_oldest_ids(channel, limit)`.
Python `or` falls through both on a missing key and on an empty list, so the
connector `ytOldest` (the `_yt_oldest_ids` collaborator) is consulted exactly
when `video_ids` is absent or `[]`. -/
def discoverIds (ytOldest : String → Nat → List String) (req : RunRequest) :
    List String :=
  match req.video_ids with
  | some l => if l = [] then ytOldest req.target req.max_items else l
  | none => ytOldest req.target req.max_items

/-- Python `str.strip()`: drop leading and trailing whitespace.  Written over
the character list so the kernel can evaluate it on concrete inputs. -/
def pyStrip (s : String) : String :=
  String.mk
    (((s.data.dropWhile Char.isWhitespace).reverse.dropWhile
        Char.isWhitespace).reverse)

/-- Lines 88-91: turn one video's transcript segments into items, stripping
each segment text and skipping segments that are empty after stripping. -/
def segItems (vid : String) (tr : List Seg) : List Item :=
  tr.filterMap fun seg =>
    let t := pyStrip seg.text
    if t = "" then none
    else some ⟨vid ++ "-" ++ toString seg.startMs,
               "https://www.youtube.com/watch?v=" ++ vid, t,
               ⟨vid, seg.startMs⟩⟩

/-- Lines 81-91: the fetch loop.  `transcript` is the `_transcript`
collaborator returning the segment list and the optional error string; a
per-item failure is appended to `missing` and the loop continues. -/
def fetchLoop (transcript : String → List Seg × Option String)
    (vids : List String) : List Item × List MissingEntry :=
  vids.foldl
    (fun acc vid =>
      match (transcript vid).2 with
      | some e => (acc.1, acc.2 ++ [⟨vid, e⟩])
      | none => (acc.1 ++ segItems vid (transcript vid).1, acc.2))
    ([], [])

/-- The per-item record of `_canonicalize` (lines 38-43): one record per item, the
text payload carried as a single-sentence list. -/
def toRecord (it : Item) : Record :=
  ⟨it.id, it.url, [⟨it.text⟩], it.meta⟩

/-- Translation of `_canonicalize` (lines 35-44): one JSON line per item, in input order. -/
def canonicalize (items : List Item) : List Record :=
  items.map toRecord

/-- The per-line body of `_provenance` (lines 52-64): hash every sentence and
attach the hash list and merkle root as the `prov` object. -/
def provRecord (h : String → String) (d : Record) : ProvRecord :=
  let hs := d.sentences.map fun s => h s.text
  ⟨d, ⟨hs, merkle_root h hs⟩⟩

/-- Translation of `_provenance` over the whole corpus stream, one output line per input
line. -/
def provenance (h : String → String) (recs : List Record) : List ProvRecord :=
  recs.map (provRecord h)

/-- The `RUNS` root (tasks.py line 8, default value of `RUNS_ROOT`). -/
def runsRoot : String := "/app/data/runs"

/-- Translation of `run_job` (tasks.py lines 68-104) as a function of its collaborators: the
hash `h` (SHA-256 in the source), the discovery connector `ytOldest`
(`_yt_oldest_ids`), and the per-video `transcript` fetcher (`_transcript`).
The returned trace lists every status snapshot written via `upd`, in order,
and the artifacts written when their stage is reached. -/
def run_job (h : String → String) (ytOldest : String → Nat → List String)
    (transcript : String → List Seg × Option String)
    (job_id : String) (req : RunRequest) : RunTrace :=
  let s1 : Status := ⟨"running", "discover", 1/20, none, none⟩
  let vids := discoverIds ytOldest req
  if vids = [] then
    ⟨[s1, ⟨"error", "discover", 1/10, some "No videos found", none⟩],
     none, none, none⟩
  else
    let fm := fetchLoop transcript vids
    let items := fm.1
    let missing := fm.2
    let s2 : Status := ⟨"running", "canonicalize", 7/20, none,
      some [("videos", vids.length), ("segments", items.length),
            ("missing", missing.length)]⟩
    let corpus := canonicalize items
    let s3 : Status := ⟨"running", "provenance", 11/20, none, none⟩
    let provStream := provenance h corpus
    let s4 : Status := ⟨"running", "analyze", 4/5, none, none⟩
    let results : Results :=
      ⟨[], 0, [], runsRoot ++ "/" ++ job_id,
       if missing = [] then none else some ⟨missing⟩⟩
    ⟨[s1, s2, s3, s4, ⟨"done", "done", 1, none, none⟩],
     some corpus, some provStream, some results⟩

/-- The initial snapshot written by `store.create_job` (store.py line 12):
`{"state":"queued","stage":"queued","progress":0.0,"metrics":{}}`. -/
def initialStatus : Status := ⟨"queued", "queued", 0, none, some []⟩

/-- The full sequence of status snapshots a job's `status.json` passes
through, from creation by the API through every `upd` of `run_job`. -/
def fullTrace (h : String → String) (ytOldest : String → Nat → List String)
    (transcript : String → List Seg × Option String)
    (job_id : String) (req : RunRequest) : List Status :=
  initialStatus :: (run_job h ytOldest transcript job_id req).statuses

/-- Spec-side reader of a canonical record, modelled from the round-trip
wording of spec §8: recover the item (`doc_id`, `url`, sentence text, `meta`)
from the record as written to the corpus stream. -/
def itemOfRecord (r : Record) : Item :=
  ⟨r.doc_id, r.url, (r.sentences.headD ⟨""⟩).text, r.meta⟩

/-! ## Queue worker boundary (worker.py) -/

/-- The outcome of one iteration of the worker's `while True` loop: the job
store after the iteration, whether the loop proceeds to the next iteration,
and the `job.fail` log entry `(job_id, err)` when the runner raised. -/
structure WorkerStepResult (σ : Type) where
  store : σ
  continues : Bool
  logged : Option (String × String)
deriving DecidableEq

/-- One iteration of the worker loop (worker.py lines 10-18), over an
abstract job store `σ`.  `dq` is the `brpop` result (`none` on timeout);
`runner` is `run_job`, whose Python exceptions are modelled as
`Except.error` carrying `str(e)`.  The `try/except` absorbs the error: the
loop always continues, and on failure the store is left untouched and the
failure is only logged. -/
def workerStep {σ : Type} (runner : String → σ → Except String σ)
    (dq : Option String) (store : σ) : WorkerStepResult σ :=
  match dq with
  | none => ⟨store, true, none⟩
  | some job_id =>
    match runner job_id store with
    | .ok store2 => ⟨store2, true, none⟩
    | .error e => ⟨store, true, some (job_id, e)⟩

/-! ## A concrete collision-free hash for witnesses

The order-sensitivity claim holds for every hash whose digest concatenations
are uniquely decodable (SHA-256 satisfies this idealization via its fixed
digest width and collision resistance).  `tagHash` is a concrete computable
hash with that property, used to instantiate the universally quantified
theorems: it prefixes the text with its length in unary, so a concatenation
of two digests splits unambiguously at the first colon. -/

/-- Unary-length-prefixed encoding of a character list. -/
def tagEnc (l : List Char) : List Char :=
  List.replicate l.length '1' ++ ':' :: l

/-- The concrete witness hash. -/
def tagHash (s : String) : String :=
  String.mk (tagEnc s.data)

/-- A hash is pair-decodable when a concatenation of two digests determines
both preimages.  This is the "collision-free on the inputs involved"
hypothesis of the order-sensitivity claim, stated once for all inputs. -/
def PairDec (h : String → String) : Prop :=
  ∀ u v u' v' : String, h u ++ h v = h u' ++ h v' → u = u' ∧ v = v'

/-! ## Basic lemmas about the level fold -/

/-- Two-elements-at-a-time induction over string lists, matching the shape of
`hashPairs` and `chunkPairs`. -/
theorem twoStepInduction {motive : List String → Prop} (h0 : motive [])
    (h1 : ∀ x, motive [x])
    (h2 : ∀ x y rest, motive rest → motive (x :: y :: rest)) :
    ∀ l, motive l
  | [] => h0
  | [x] => h1 x
  | x :: y :: rest => h2 x y rest (twoStepInduction h0 h1 h2 rest)

theorem hashPairs_length (h : String → String) :
    ∀ l : List String, (hashPairs h l).length = l.length / 2 := by
  intro l
  induction l using twoStepInduction with
  | h0 => simp [hashPairs]
  | h1 x => simp [hashPairs]
  | h2 x y rest ih => simp [hashPairs, ih]; omega

theorem padIfOdd_length (l : List String) :
    (padIfOdd l).length = if l.length % 2 = 1 then l.length + 1 else l.length := by
  unfold padIfOdd
  split <;> simp

theorem levelUp_length (h : String → String) (l : List String) :
    (levelUp h l).length = (l.length + 1) / 2 := by
  unfold levelUp
  rw [hashPairs_length, padIfOdd_length]
  split <;> omega

theorem padIfOdd_cons_cons (x y : String) (r : List String) :
    padIfOdd (x :: y :: r) = x :: y :: padIfOdd r := by
  unfold padIfOdd
  have hmod : (x :: y :: r).length % 2 = r.length % 2 := by
    simp only [List.length_cons]
    omega
  rw [hmod]
  split
  · rename_i hodd
    have hne : r ≠ [] := by
      intro hnil; rw [hnil] at hodd; simp at hodd
    cases r with
    | nil => exact absurd rfl hne
    | cons a as => simp [List.getLast?_cons_cons]
  · rfl

theorem levelUp_nil (h : String → String) : levelUp h [] = [] := rfl

theorem levelUp_single (h : String → String) (x : String) :
    levelUp h [x] = [h (x ++ x)] := rfl

theorem levelUp_cons_cons (h : String → String) (x y : String) (r : List String) :
    levelUp h (x :: y :: r) = h (x ++ y) :: levelUp h r := by
  unfold levelUp
  rw [padIfOdd_cons_cons]
  rfl

/-! ## The fuel-indexed loop computes the loop's fixpoint -/

theorem merkleLoopFuel_low (h : String → String) (fuel : Nat) (l : List String)
    (hl : l.length ≤ 1) : merkleLoopFuel h fuel l = l.headD "" := by
  cases fuel with
  | zero => rfl
  | succ f =>
    unfold merkleLoopFuel
    rw [if_neg]
    omega

/-- Any fuel of at least the layer length computes the same result: the fuel
is an artifact of rendering the `while` loop, not a semantic parameter. -/
theorem merkleLoopFuel_irrel (h : String → String) :
    ∀ n f1 f2 (l : List String), l.length = n → l.length ≤ f1 →
      l.length ≤ f2 → merkleLoopFuel h f1 l = merkleLoopFuel h f2 l := by
  intro n
  induction n using Nat.strong_induction_on with
  | _ n ih =>
    intro f1 f2 l hn h1 h2
    by_cases hlen : l.length ≤ 1
    · rw [merkleLoopFuel_low h f1 l hlen, merkleLoopFuel_low h f2 l hlen]
    · have h2le : 2 ≤ l.length := by omega
      obtain ⟨a, rfl⟩ : ∃ a, f1 = a + 1 := ⟨f1 - 1, by omega⟩
      obtain ⟨b, rfl⟩ : ∃ b, f2 = b + 1 := ⟨f2 - 1, by omega⟩
      unfold merkleLoopFuel
      rw [if_pos (by omega), if_pos (by omega)]
      have hlev : (levelUp h l).length = (l.length + 1) / 2 := levelUp_length h l
      exact ih (levelUp h l).length (by omega) a b (levelUp h l) rfl
        (by omega) (by omega)

theorem merkle_root_nil (h : String → String) : merkle_root h [] = h "" := rfl

theorem merkle_root_single (h : String → String) (d : String) :
    merkle_root h [d] = d := rfl

/-- Unfolding one iteration of the `while` loop: on a layer of two or more
digests the root is the root of the next level. -/
theorem merkle_root_step (h : String → String) (l : List String)
    (hl : 2 ≤ l.length) : merkle_root h l = merkle_root h (levelUp h l) := by
  have hne : l.isEmpty = false := by
    cases l with
    | nil => simp at hl
    | cons a as => rfl
  have hlev : (levelUp h l).length = (l.length + 1) / 2 := levelUp_length h l
  have hne2 : (levelUp h l).isEmpty = false := by
    rw [List.isEmpty_eq_false_iff_exists_mem]
    have : 1 ≤ (levelUp h l).length := by omega
    cases hcl : levelUp h l with
    | nil => rw [hcl] at this; simp at this
    | cons a as => exact ⟨a, by simp⟩
  have e1 : merkle_root h l = merkleLoopFuel h l.length l := by
    unfold merkle_root; rw [hne]; simp
  have e2 : merkle_root h (levelUp h l)
      = merkleLoopFuel h (levelUp h l).length (levelUp h l) := by
    unfold merkle_root; rw [hne2]; simp
  obtain ⟨a, ha⟩ : ∃ a, l.length = a + 1 := ⟨l.length - 1, by omega⟩
  have e3 : merkleLoopFuel h (a + 1) l
      = if 1 < l.length then merkleLoopFuel h a (levelUp h l)
        else l.headD "" := rfl
  rw [e1, e2, ha, e3, if_pos (by omega)]
  exact merkleLoopFuel_irrel h (levelUp h l).length a (levelUp h l).length
    (levelUp h l) rfl (by omega) le_rfl

/-! ## The spec fold equals the implementation root -/

theorem specLevel_eq_levelUp (h : String → String) :
    ∀ l : List String, specLevel h l = levelUp h l := by
  intro l
  induction l using twoStepInduction with
  | h0 => rfl
  | h1 x => rfl
  | h2 x y rest ih =>
    rw [levelUp_cons_cons]
    unfold specLevel chunkPairs
    rw [List.map_cons, ← ih]
    rfl

theorem specFoldLevels_eq_merkle_root (h : String → String) :
    ∀ n (l : List String) fuel, l.length = n → l.length ≤ fuel + 1 →
      specFoldLevels h fuel l = merkle_root h l := by
  intro n
  induction n using Nat.strong_induction_on with
  | _ n ih =>
    intro l fuel hn hfuel
    match l with
    | [] =>
      cases fuel <;> rfl
    | [d] =>
      rw [merkle_root_single]
      cases fuel <;> rfl
    | x :: y :: r =>
      have hlen : 2 ≤ (x :: y :: r).length := by simp
      obtain ⟨g, rfl⟩ : ∃ g, fuel = g + 1 := ⟨fuel - 1, by simp at hfuel; omega⟩
      rw [merkle_root_step h _ hlen]
      have harm : specFoldLevels h (g + 1) (x :: y :: r)
          = specFoldLevels h g (specLevel h (x :: y :: r)) := rfl
      rw [harm, specLevel_eq_levelUp]
      have hlev : (levelUp h (x :: y :: r)).length
          = ((x :: y :: r).length + 1) / 2 := levelUp_length h _
      exact ih (levelUp h (x :: y :: r)).length
        (by rw [hlev]; simp only [List.length_cons] at hn ⊢; omega)
        (levelUp h (x :: y :: r)) g rfl
        (by rw [hlev]; simp only [List.length_cons] at hfuel ⊢; omega)

/-- C1: for every list of sentence texts the implementation's merkle root
equals the spec's pairwise-hash fold (hash each sentence, then repeatedly hash
adjacent digest pairs, duplicating the last digest of an odd level, until one
digest remains); in particular the two worked examples of the spec:
`["a","b"]`-shaped lists give `h(h(a) ++ h(b))` and `["a","b","c"]`-shaped
lists give `h(h(h(a) ++ h(b)) ++ h(h(c) ++ h(c)))`. -/
theorem merkle_root_eq_spec_fold (h : String → String) :
    (∀ sentences : List String,
      rootOfSentences h sentences = specRootOfSentences h sentences)
    ∧ (∀ a b : String, rootOfSentences h [a, b] = h (h a ++ h b))
    ∧ (∀ a b c : String,
        rootOfSentences h [a, b, c] = h (h (h a ++ h b) ++ h (h c ++ h c))) := by
  refine ⟨fun sentences => ?_, fun a b => ?_, fun a b c => ?_⟩
  · unfold rootOfSentences specRootOfSentences
    exact (specFoldLevels_eq_merkle_root h (sentences.map h).length
      (sentences.map h) (sentences.map h).length rfl (by omega)).symm
  · simp [rootOfSentences, merkle_root, merkleLoopFuel, levelUp, padIfOdd,
      hashPairs]
  · simp [rootOfSentences, merkle_root, merkleLoopFuel, levelUp, padIfOdd,
      hashPairs]

/-- C3 counterexample: on the singleton digest list `["x"]` the implementation
returns the digest itself, not the hash of the digest concatenated with
itself, refuting the claimed `h(d ++ d)` root (here at the explicit hash
`tagHash`, for which the two values differ). -/
theorem merkle_root_single_not_selfhash :
    merkle_root tagHash ["x"] = "x"
    ∧ merkle_root tagHash ["x"] ≠ tagHash ("x" ++ "x") := by
  constructor
  · rfl
  · decide

/-- C3 amended: for every hash and every singleton digest list `[d]`, the
`while len(layer) > 1` loop exits immediately (one digest already remains)
and `merkle_root` returns the digest `d` itself — the singleton is not
special-cased, but the uniform fold yields `d`, not `h(d ++ d)`. -/
theorem merkle_root_singleton (h : String → String) (d : String) :
    merkle_root h [d] = d := rfl

/-! ## Discovery override (C10) -/

/-- C10: when the request carries a non-empty `video_ids` list, discovery uses
exactly that list, in order — the connector is never consulted (the result is
the same for every connector), and neither the `max_items` limit nor the
order preference of the request (both quantified over freely here) affects
it. -/
theorem discover_uses_explicit_ids
    (ytOldest ytOther : String → Nat → List String) (req : RunRequest)
    (l : List String) (hids : req.video_ids = some l) (hne : l ≠ []) :
    discoverIds ytOldest req = l ∧ discoverIds ytOther req = l := by
  unfold discoverIds
  rw [hids]
  simp [hne]

/-- C10 witness: a request with explicit ids `["v1", "v2"]` and `max_items =
1` discovers exactly those two ids (no truncation) under two connectors that
would have returned different lists. -/
theorem discover_uses_explicit_ids_witness :
    discoverIds (fun _ _ => ["zzz"]) ⟨"chan", 1, "oldest", some ["v1", "v2"]⟩
      = ["v1", "v2"]
    ∧ discoverIds (fun _ _ => []) ⟨"chan", 1, "oldest", some ["v1", "v2"]⟩
      = ["v1", "v2"] :=
  discover_uses_explicit_ids (fun _ _ => ["zzz"]) (fun _ _ => [])
    ⟨"chan", 1, "oldest", some ["v1", "v2"]⟩ ["v1", "v2"] rfl (by decide)

/-! ## Empty discovery (C4) -/

/-- C4 counterexample: on a job with `video_ids = []` and a target resolving
to zero items, the run does end `error`/`discover`/"No videos found", but the
final progress is `0.1`, which differs from the `0.05` that was set on
entering the discover stage — refuting the claim that progress is left at the
fraction set on entering discover. -/
theorem empty_discovery_progress_not_left :
    (run_job (fun s => s) (fun _ _ => []) (fun _ => ([], none)) "job1"
        ⟨"chan", 10, "oldest", some []⟩).statuses
      = [⟨"running", "discover", 1/20, none, none⟩,
         ⟨"error", "discover", 1/10, some "No videos found", none⟩]
    ∧ ((1 : ℚ)/10) ≠ 1/20 := by
  constructor
  · rfl
  · norm_num

/-- C4 amended: whenever discovery resolves to zero items, the run writes
exactly two snapshots — `running`/`discover` at progress `0.05`, then the
terminal `error`/`discover` carrying message "No videos found" at progress
`0.1` (advanced from, not left at, the discover-entry fraction) — and no
corpus, provenance or results artifact is written. -/
theorem empty_discovery_terminal (h : String → String)
    (ytOldest : String → Nat → List String)
    (transcript : String → List Seg × Option String)
    (job_id : String) (req : RunRequest)
    (hempty : discoverIds ytOldest req = []) :
    run_job h ytOldest transcript job_id req
      = ⟨[⟨"running", "discover", 1/20, none, none⟩,
          ⟨"error", "discover", 1/10, some "No videos found", none⟩],
         none, none, none⟩ := by
  unfold run_job
  rw [hempty]
  rfl

/-- C4 amended witness: the empty-discovery run at a concrete request with
`video_ids = []` and a connector returning no items. -/
theorem empty_discovery_terminal_witness :
    run_job (fun s => s) (fun _ _ => []) (fun _ => ([], none)) "job1"
        ⟨"chan", 10, "oldest", some []⟩
      = ⟨[⟨"running", "discover", 1/20, none, none⟩,
          ⟨"error", "discover", 1/10, some "No videos found", none⟩],
         none, none, none⟩ :=
  empty_discovery_terminal (fun s => s) (fun _ _ => []) (fun _ => ([], none))
    "job1" ⟨"chan", 10, "oldest", some []⟩ rfl

/-! ## Canonicalization round trip (C7) -/

/-- C7: canonicalization writes exactly one record per item (same length), in
input order (the record at every index is the record of the item at that
index — nothing reordered or dropped, empty texts included, since items are
unrestricted), each item is recoverable from its record (`doc_id`, `url`,
sentence text, `meta` all carried faithfully), and stripping the provenance
fields added later recovers the corpus stream unchanged. -/
theorem canonicalize_round_trip (items : List Item) :
    (canonicalize items).length = items.length
    ∧ (∀ i : Nat, (canonicalize items)[i]? = (items[i]?).map toRecord)
    ∧ (∀ it : Item, itemOfRecord (toRecord it) = it)
    ∧ (∀ (h : String → String) (recs : List Record),
        (provenance h recs).map ProvRecord.record = recs) := by
  refine ⟨by simp [canonicalize], fun i => ?_, fun it => rfl, fun h recs => ?_⟩
  · simp [canonicalize]
  · simp only [provenance, List.map_map]
    have hcomp : (ProvRecord.record ∘ provRecord h) = id := funext fun d => rfl
    rw [hcomp, List.map_id]

/-! ## Monotone, bounded progress (C6) -/

/-- C6: over every run (for every hash, connector, transcript fetcher, job id
and request), the sequence of status snapshots from creation (progress 0)
through every transition to the terminal state has monotonically
non-decreasing progress, and every written progress value lies in [0, 1]. -/
theorem progress_monotone_bounded (h : String → String)
    (ytOldest : String → Nat → List String)
    (transcript : String → List Seg × Option String)
    (job_id : String) (req : RunRequest) :
    (fullTrace h ytOldest transcript job_id req).Chain'
        (fun a b => a.progress ≤ b.progress)
    ∧ ∀ s ∈ fullTrace h ytOldest transcript job_id req,
        0 ≤ s.progress ∧ s.progress ≤ 1 := by
  unfold fullTrace run_job initialStatus
  by_cases hempty : discoverIds ytOldest req = []
  · rw [if_pos hempty]
    constructor
    · simp only [List.chain'_cons, List.chain'_singleton, and_true]
      norm_num
    · intro s hs
      simp only [List.mem_cons, List.not_mem_nil, or_false] at hs
      rcases hs with rfl | rfl | rfl <;> norm_num
  · rw [if_neg hempty]
    constructor
    · simp only [List.chain'_cons, List.chain'_singleton, and_true]
      norm_num
    · intro s hs
      simp only [List.mem_cons, List.not_mem_nil, or_false] at hs
      rcases hs with rfl | rfl | rfl | rfl | rfl | rfl <;> norm_num

/-! ## Worker failure boundary (C2) -/

/-- C2 counterexample: with a runner that raises ("boom") on job `"j1"`, the
worker iteration catches the exception and continues, but the job store is
returned untouched — the job's status still reads `running`, not the claimed
`error` state carrying the exception's message. -/
theorem worker_no_error_state_written :
    (workerStep
        (fun _ (_ : List (String × Status)) =>
          (Except.error "boom" : Except String (List (String × Status))))
        (some "j1")
        [("j1", ⟨"running", "discover", 1/20, none, none⟩)]).store
      = [("j1", ⟨"running", "discover", 1/20, none, none⟩)]
    ∧ (List.lookup "j1"
        (workerStep
          (fun _ (_ : List (String × Status)) =>
            (Except.error "boom" : Except String (List (String × Status))))
          (some "j1")
          [("j1", ⟨"running", "discover", 1/20, none, none⟩)]).store).map
            Status.state
      = some "running"
    ∧ "running" ≠ "error" := by
  refine ⟨rfl, rfl, by decide⟩

/-- C2 amended: for every store type, runner, job id and store, if the runner
raises (returns `Except.error e`) on the dequeued job, the worker iteration
absorbs the failure — the loop continues and the failure is logged with the
exception's message — but the job store is left exactly as it was: no `error`
state is written for the job. -/
theorem workerStep_absorbs {σ : Type} (runner : String → σ → Except String σ)
    (job_id : String) (st : σ) (e : String)
    (hfail : runner job_id st = Except.error e) :
    workerStep runner (some job_id) st = ⟨st, true, some (job_id, e)⟩ := by
  simp [workerStep, hfail]

/-- C2 amended witness: the absorbing iteration at a concrete failing runner
and store. -/
theorem workerStep_absorbs_witness :
    workerStep
        (fun _ (_ : List (String × Status)) =>
          (Except.error "boom" : Except String (List (String × Status))))
        (some "j1")
        [("j1", ⟨"running", "discover", 1/20, none, none⟩)]
      = ⟨[("j1", ⟨"running", "discover", 1/20, none, none⟩)], true,
         some ("j1", "boom")⟩ :=
  workerStep_absorbs
    (fun _ (_ : List (String × Status)) =>
      (Except.error "boom" : Except String (List (String × Status))))
    "j1" [("j1", ⟨"running", "discover", 1/20, none, none⟩)] "boom" rfl

/-! ## Partial fetch failure (C5) -/

/-- C5: on a job with exactly two discovered items of which exactly one
item's fetch fails (in either position), the failure is never job-fatal: the
final snapshot is `done`, and the written results' `notes.missing_transcripts`
holds exactly the failed item's id (with its error message) and no others. -/
theorem fetch_partial_failure (h : String → String)
    (ytOldest : String → Nat → List String)
    (transcript : String → List Seg × Option String)
    (job_id : String) (req : RunRequest) (v1 v2 m : String)
    (hv : discoverIds ytOldest req = [v1, v2]) :
    ((transcript v1).2 = some m → (transcript v2).2 = none →
      ((run_job h ytOldest transcript job_id req).statuses.getLast?).map
          Status.state = some "done"
      ∧ (run_job h ytOldest transcript job_id req).results.map Results.notes
          = some (some ⟨[⟨v1, m⟩]⟩))
    ∧ ((transcript v1).2 = none → (transcript v2).2 = some m →
      ((run_job h ytOldest transcript job_id req).statuses.getLast?).map
          Status.state = some "done"
      ∧ (run_job h ytOldest transcript job_id req).results.map Results.notes
          = some (some ⟨[⟨v2, m⟩]⟩)) := by
  constructor
  · intro h1 h2
    unfold run_job
    rw [hv]
    simp [fetchLoop, h1, h2]
  · intro h1 h2
    unfold run_job
    rw [hv]
    simp [fetchLoop, h1, h2]

/-- C5 witness: a two-item job where fetching `"v1"` fails with "boom" and
`"v2"` succeeds ends `done` with `missing_transcripts = [("v1", "boom")]`. -/
theorem fetch_partial_failure_witness :
    ((run_job (fun s => s) (fun _ _ => [])
        (fun v => if v = "v1" then ([], some "boom") else ([⟨"hi", 0⟩], none))
        "j" ⟨"chan", 10, "oldest", some ["v1", "v2"]⟩).statuses.getLast?).map
          Status.state = some "done"
    ∧ (run_job (fun s => s) (fun _ _ => [])
        (fun v => if v = "v1" then ([], some "boom") else ([⟨"hi", 0⟩], none))
        "j" ⟨"chan", 10, "oldest", some ["v1", "v2"]⟩).results.map
          Results.notes
      = some (some ⟨[⟨"v1", "boom"⟩]⟩) :=
  (fetch_partial_failure (fun s => s) (fun _ _ => [])
    (fun v => if v = "v1" then ([], some "boom") else ([⟨"hi", 0⟩], none))
    "j" ⟨"chan", 10, "oldest", some ["v1", "v2"]⟩ "v1" "v2" "boom"
    (by decide)).1 (by decide) (by decide)

/-! ## Metrics are not carried forward (C8) -/

/-- C8 counterexample: on a concrete one-video job, the canonicalize
transition (snapshot index 1) records the metrics entries, but the very next
snapshot (index 2, still `running`, stage `provenance`) is written without
any metrics key — the entries are erased before the job terminates, refuting
the claim that they persist in every later snapshot. -/
theorem metrics_dropped_after_canonicalize :
    ((run_job (fun s => s) (fun _ _ => [])
        (fun _ => ([⟨"hello", 0⟩], none)) "j"
        ⟨"chan", 10, "oldest", some ["v1"]⟩).statuses[1]?).map Status.metrics
      = some (some [("videos", 1), ("segments", 1), ("missing", 0)])
    ∧ (run_job (fun s => s) (fun _ _ => [])
        (fun _ => ([⟨"hello", 0⟩], none)) "j"
        ⟨"chan", 10, "oldest", some ["v1"]⟩).statuses[2]?
      = some ⟨"running", "provenance", 11/20, none, none⟩ := by
  constructor
  · rfl
  · rfl

/-- C8 amended: for every job whose discovery is non-empty, the
`metrics.videos` / `metrics.segments` / `metrics.missing` entries recorded at
the fetch/canonicalize transition appear in that snapshot only: each later
status write replaces the whole status object and carries no metrics key
(`{}` at creation, absent everywhere else). -/
theorem metrics_only_in_canonicalize_snapshot (h : String → String)
    (ytOldest : String → Nat → List String)
    (transcript : String → List Seg × Option String)
    (job_id : String) (req : RunRequest)
    (hne : discoverIds ytOldest req ≠ []) :
    ∃ m, (fullTrace h ytOldest transcript job_id req).map Status.metrics
      = [some [], none, some m, none, none, none] := by
  unfold fullTrace run_job initialStatus
  rw [if_neg hne]
  exact ⟨_, rfl⟩

/-- C8 amended witness: the metrics column of the snapshot sequence at a
concrete one-video job. -/
theorem metrics_only_in_canonicalize_snapshot_witness :
    ∃ m, (fullTrace (fun s => s) (fun _ _ => [])
        (fun _ => ([⟨"hello", 0⟩], none)) "j"
        ⟨"chan", 10, "oldest", some ["v1"]⟩).map Status.metrics
      = [some [], none, some m, none, none, none] :=
  metrics_only_in_canonicalize_snapshot (fun s => s) (fun _ _ => [])
    (fun _ => ([⟨"hello", 0⟩], none)) "j" ⟨"chan", 10, "oldest", some ["v1"]⟩
    (by decide)

/-! ## Order sensitivity of the merkle root (C9) -/

theorem hashPairs_mem_img (h : String → String) :
    ∀ (l : List String) (z : String), z ∈ hashPairs h l → ∃ s, z = h s := by
  intro l
  induction l using twoStepInduction with
  | h0 => intro z hz; simp [hashPairs] at hz
  | h1 x => intro z hz; simp [hashPairs] at hz
  | h2 x y rest ih =>
    intro z hz
    simp only [hashPairs, List.mem_cons] at hz
    rcases hz with rfl | hz
    · exact ⟨x ++ y, rfl⟩
    · exact ih z hz

theorem levelUp_mem_img (h : String → String) (l : List String) (z : String)
    (hz : z ∈ levelUp h l) : ∃ s, z = h s :=
  hashPairs_mem_img h (padIfOdd l) z hz

/-- A pair-decodable hash is injective. -/
theorem pairDec_inj (h : String → String) (hd : PairDec h) (a b : String)
    (hab : h a = h b) : a = b :=
  (hd a a b b (by rw [hab])).1

/-- Core induction for order sensitivity: two layers that agree except in
their distinct heads (all entries being digests of `h`) fold to distinct
roots, for every pair-decodable `h`. -/
theorem merkle_root_head_ne (h : String → String) (hd : PairDec h) :
    ∀ n (t : List String) x x', t.length = n → (∃ u, x = h u) →
      (∃ u', x' = h u') → x ≠ x' → (∀ z ∈ t, ∃ s, z = h s) →
      merkle_root h (x :: t) ≠ merkle_root h (x' :: t) := by
  intro n
  induction n using Nat.strong_induction_on with
  | _ n ih =>
    intro t x x' hn hx hx' hne himg
    cases t with
    | nil =>
      rw [merkle_root_single, merkle_root_single]
      exact hne
    | cons y t2 =>
      have e1 : merkle_root h (x :: y :: t2)
          = merkle_root h (h (x ++ y) :: levelUp h t2) := by
        rw [merkle_root_step h (x :: y :: t2) (by simp), levelUp_cons_cons]
      have e2 : merkle_root h (x' :: y :: t2)
          = merkle_root h (h (x' ++ y) :: levelUp h t2) := by
        rw [merkle_root_step h (x' :: y :: t2) (by simp), levelUp_cons_cons]
      rw [e1, e2]
      obtain ⟨u, rfl⟩ := hx
      obtain ⟨u', rfl⟩ := hx'
      obtain ⟨v, hv⟩ := himg y (by simp)
      have hnewne : h (h u ++ y) ≠ h (h u' ++ y) := by
        intro hcontra
        apply hne
        have hcat : h u ++ y = h u' ++ y := pairDec_inj h hd _ _ hcontra
        rw [hv] at hcat
        rw [(hd u v u' v hcat).1]
      have hlev : (levelUp h t2).length = (t2.length + 1) / 2 :=
        levelUp_length h t2
      refine ih (levelUp h t2).length ?_ (levelUp h t2) _ _ rfl ⟨_, rfl⟩
        ⟨_, rfl⟩ hnewne (fun z hz => levelUp_mem_img h t2 z hz)
      simp only [List.length_cons] at hn
      omega

/-- C9: for every list of two or more pairwise-distinct sentences and every
pair-decodable hash (the "collision-free on the inputs involved" idealization
of SHA-256), some permutation of the list — here, swapping the first two
sentences — changes the merkle root: the root is not permutation-invariant. -/
theorem merkle_root_order_sensitive (h : String → String) (hd : PairDec h)
    (l : List String) (hlen : 2 ≤ l.length)
    (hdist : l.Pairwise (fun a b => a ≠ b)) :
    ∃ l2, l2.Perm l ∧ rootOfSentences h l2 ≠ rootOfSentences h l := by
  obtain ⟨a, l1, rfl⟩ : ∃ a l1, l = a :: l1 := by
    cases l with
    | nil => simp at hlen
    | cons a l1 => exact ⟨a, l1, rfl⟩
  obtain ⟨b, t, rfl⟩ : ∃ b t, l1 = b :: t := by
    cases l1 with
    | nil => simp at hlen
    | cons b t => exact ⟨b, t, rfl⟩
  have hab : a ≠ b := (List.pairwise_cons.mp hdist).1 b (by simp)
  refine ⟨b :: a :: t, List.Perm.swap a b t, ?_⟩
  unfold rootOfSentences
  simp only [List.map_cons]
  have e1 : merkle_root h (h b :: h a :: List.map h t)
      = merkle_root h (h (h b ++ h a) :: levelUp h (List.map h t)) := by
    rw [merkle_root_step h (h b :: h a :: List.map h t) (by simp),
      levelUp_cons_cons]
  have e2 : merkle_root h (h a :: h b :: List.map h t)
      = merkle_root h (h (h a ++ h b) :: levelUp h (List.map h t)) := by
    rw [merkle_root_step h (h a :: h b :: List.map h t) (by simp),
      levelUp_cons_cons]
  rw [e1, e2]
  refine merkle_root_head_ne h hd (levelUp h (List.map h t)).length
    (levelUp h (List.map h t)) _ _ rfl ⟨_, rfl⟩ ⟨_, rfl⟩ ?_
    (fun z hz => levelUp_mem_img h (List.map h t) z hz)
  intro hcontra
  have hcat : h b ++ h a = h a ++ h b := pairDec_inj h hd _ _ hcontra
  exact hab ((hd b a a b hcat).1).symm

/-! ## tagHash is pair-decodable -/

theorem replicate_colon_inj :
    ∀ n n' (t t' : List Char),
      List.replicate n '1' ++ ':' :: t = List.replicate n' '1' ++ ':' :: t' →
      n = n' ∧ t = t' := by
  intro n
  induction n with
  | zero =>
    intro n' t t' hq
    cases n' with
    | zero =>
      simp only [List.replicate, List.nil_append, List.cons.injEq] at hq
      exact ⟨rfl, hq.2⟩
    | succ k =>
      simp only [List.replicate, List.nil_append, List.cons_append,
        List.cons.injEq] at hq
      exact absurd hq.1 (by decide)
  | succ k ihk =>
    intro n' t t' hq
    cases n' with
    | zero =>
      simp only [List.replicate, List.nil_append, List.cons_append,
        List.cons.injEq] at hq
      exact absurd hq.1 (by decide)
    | succ k2 =>
      simp only [List.replicate, List.cons_append, List.cons.injEq] at hq
      obtain ⟨n_eq, t_eq⟩ := ihk k2 t t' hq.2
      exact ⟨by omega, t_eq⟩

theorem tagEnc_pair_inj (u v u' v' : List Char)
    (hq : tagEnc u ++ tagEnc v = tagEnc u' ++ tagEnc v') :
    u = u' ∧ v = v' := by
  unfold tagEnc at hq
  simp only [List.append_assoc, List.cons_append] at hq
  obtain ⟨hlen, htail⟩ := replicate_colon_inj u.length u'.length _ _ hq
  obtain ⟨hu, hrest⟩ := List.append_inj htail hlen
  obtain ⟨_, hv⟩ := replicate_colon_inj v.length v'.length v v' hrest
  exact ⟨hu, hv⟩

theorem tagHash_pairDec : PairDec tagHash := by
  intro u v u' v' hq
  have hdata : tagEnc u.data ++ tagEnc v.data
      = tagEnc u'.data ++ tagEnc v'.data := congrArg String.data hq
  obtain ⟨hu, hv⟩ := tagEnc_pair_inj _ _ _ _ hdata
  constructor
  · cases u with
    | mk du =>
      cases u' with
      | mk du' => simp only at hu; rw [hu]
  · cases v with
    | mk dv =>
      cases v' with
      | mk dv' => simp only at hv; rw [hv]

/-- C9 witness: the two distinct sentences `["a", "b"]` under the concrete
pair-decodable hash `tagHash` admit a permutation with a different root. -/
theorem merkle_root_order_sensitive_witness :
    ∃ l2, l2.Perm ["a", "b"]
      ∧ rootOfSentences tagHash l2 ≠ rootOfSentences tagHash ["a", "b"] :=
  merkle_root_order_sensitive tagHash tagHash_pairDec ["a", "b"] (by decide)
    (by decide)
